import Mathlib

/-!
Verification model of the qpid per-session broker core
(`src/qpid/cpp/src/qpid/broker/SessionState.cpp`) and of the client-side
reconnect engine (`src/qpid/cpp/src/qpid/client/amqp0_10/ConnectionImpl.cpp`).

The stateful C++ code is embedded shallowly: each member function becomes a
pure Lean function threading an explicit state record and returning the list
of peer-visible events it emits.  Machine `SequenceNumber`s are modelled as
`Nat` (the spec reasons about the strict order of command ids).
-/

namespace Qpid

abbrev SeqNo := Nat

/-- Peer-visible outputs of the broker session (proxy calls and frames). -/
inductive Event where
  | messageAccept (ids : List SeqNo)
  | sendCompletionEv
  | executionResult (id : SeqNo) (payload : Nat)
  | executionSyncOut
  | deliverCmd (id : SeqNo)
  deriving DecidableEq, Repr

/-- Session-level errors thrown by the broker session code. -/
inductive SessionError where
  | notImplemented
  | internalError (text : String)
  | invariantViolation
  deriving DecidableEq, Repr

/-- Receiver-side session state: the command cursor pieces used by
`SessionState.cpp` plus the fields of `broker::SessionState` itself
(`accepted`, `pendingExecutionSyncs`, `currentCommandComplete`).
`incomplete` models the receiver's incomplete `SequenceSet` as a list kept
sorted ascending (its head is `receiverGetIncomplete().front()`). -/
structure RcvState where
  current : SeqNo
  incomplete : List SeqNo
  completedToSend : List SeqNo
  accepted : List SeqNo
  pendingExecutionSyncs : List SeqNo
  currentCommandComplete : Bool
  deriving DecidableEq, Repr

/-- Modelled from the spec: `qpid::SessionState::receiverCompleted` lives in
the base class (CommandCursor, not under src/).  Per spec §4.1 it removes the
id from the incomplete set and adds it to the completed-to-send set;
completing an unknown id is a no-op. -/
def receiverCompleted (s : RcvState) (id : SeqNo) : RcvState :=
  if id ∈ s.incomplete then
    { s with incomplete := s.incomplete.filter (fun c => c ≠ id),
             completedToSend := s.completedToSend ++ [id] }
  else s

/-- `SessionState::sendAcceptAndCompletion`: if the accepted set is non-empty
send `message.accept(accepted)` and clear it, then send the completion. -/
def sendAcceptAndCompletion (s : RcvState) : RcvState × List Event :=
  if s.accepted = [] then (s, [Event.sendCompletionEv])
  else ({ s with accepted := [] },
        [Event.messageAccept s.accepted, Event.sendCompletionEv])

/-- The `while` loop of `SessionState::completeRcvMsg`: while the execution
sync queue is non-empty and the lowest incomplete receiver id has reached the
queued sync id, pop it, receiver-complete it and remember that a completion
must be sent.  The queue is passed explicitly (head = front). -/
def flushLoop (q : List SeqNo) (s : RcvState) : RcvState × Bool :=
  match q with
  | [] => ({ s with pendingExecutionSyncs := [] }, false)
  | id :: rest =>
    if id ≤ s.incomplete.headD 0 then
      ((flushLoop rest (receiverCompleted s id)).1, true)
    else ({ s with pendingExecutionSyncs := id :: rest }, false)

/-- The observable attributes of an inbound message used by
`SessionState::completeRcvMsg`. -/
structure Msg where
  commandId : SeqNo
  requiresAccept : Bool
  methodIsSync : Bool
  deriving DecidableEq, Repr

/-- The `requiresAccept` branch of `SessionState::completeRcvMsg`: add the
command id to the `accepted` set, so that it appears in the next
`message.accept` sent. -/
def recordAccept (s : RcvState) (m : Msg) : RcvState :=
  if m.requiresAccept then { s with accepted := s.accepted ++ [m.commandId] } else s

/-- `SessionState::completeRcvMsg`: receiver-complete the message, record it
in `accepted` when it requires accept, flush any pending execution.sync
commands whose predecessors have all completed, and emit accept/completion
frames as the source does. -/
def completeRcvMsg (s : RcvState) (m : Msg) : RcvState × List Event :=
  let s2 := recordAccept (receiverCompleted s m.commandId) m
  let fl := flushLoop s2.pendingExecutionSyncs s2
  if m.methodIsSync then
    sendAcceptAndCompletion fl.1
  else if fl.2 then
    (fl.1, [Event.sendCompletionEv])
  else (fl.1, [])

/-- `SessionState::addPendingExecutionSync`: when the lowest incomplete
receiver id is below the current (execution.sync) command id, clear
`currentCommandComplete` and push the current id onto the sync queue. -/
def addPendingExecutionSync (s : RcvState) : RcvState :=
  let syncCommandId := s.current
  if s.incomplete.headD 0 < syncCommandId then
    { s with currentCommandComplete := false,
             pendingExecutionSyncs := s.pendingExecutionSyncs ++ [syncCommandId] }
  else s

/-- Result of `invoke(adapter, *method)`. -/
structure InvokeResult where
  wasHandled : Bool
  result : Option Nat
  deriving DecidableEq, Repr

/-- `SessionState::handleCommand`: set `currentCommandComplete`, invoke the
adapter (the invoker may mutate the session, e.g. an execution.sync method
calls `addPendingExecutionSync`), receiver-complete the id if the flag still
holds, raise NotImplemented when unhandled, send an execution.result when one
was produced, and emit the batched accept + completion when the method is
sync and the flag still holds. -/
def handleCommand (invoke : RcvState → RcvState × InvokeResult)
    (methodIsSync : Bool) (id : SeqNo) (s : RcvState) :
    RcvState × List Event × Option SessionError :=
  let s1 := { s with currentCommandComplete := true }
  let inv := invoke s1
  let s2 := inv.1
  let s3 := if s2.currentCommandComplete then receiverCompleted s2 id else s2
  if ¬ inv.2.wasHandled then
    (s3, [], some SessionError.notImplemented)
  else
    let evs1 := match inv.2.result with
      | some r => [Event.executionResult id r]
      | none => []
    if methodIsSync ∧ s3.currentCommandComplete then
      ((sendAcceptAndCompletion s3).1, evs1 ++ (sendAcceptAndCompletion s3).2, none)
    else (s3, evs1, none)

/-- The adapter invocation performed for an inbound execution.sync command:
the generated invoker dispatches to `addPendingExecutionSync` (see the
comment above `SessionState::addPendingExecutionSync`); the method is handled
and carries no result. -/
def executionSyncInvoke (s : RcvState) : RcvState × InvokeResult :=
  (addPendingExecutionSync s, { wasHandled := true, result := none })

/-! ### Field-preservation lemmas -/

theorem receiverCompleted_pendingExecutionSyncs (s : RcvState) (id : SeqNo) :
    (receiverCompleted s id).pendingExecutionSyncs = s.pendingExecutionSyncs := by
  unfold receiverCompleted; split <;> rfl

theorem receiverCompleted_current (s : RcvState) (id : SeqNo) :
    (receiverCompleted s id).current = s.current := by
  unfold receiverCompleted; split <;> rfl

theorem receiverCompleted_accepted (s : RcvState) (id : SeqNo) :
    (receiverCompleted s id).accepted = s.accepted := by
  unfold receiverCompleted; split <;> rfl

theorem receiverCompleted_ccc (s : RcvState) (id : SeqNo) :
    (receiverCompleted s id).currentCommandComplete = s.currentCommandComplete := by
  unfold receiverCompleted; split <;> rfl

theorem receiverCompleted_incomplete_subset {s : RcvState} {id c : SeqNo}
    (h : c ∈ (receiverCompleted s id).incomplete) : c ∈ s.incomplete := by
  unfold receiverCompleted at h
  split at h
  · exact List.mem_of_mem_filter h
  · exact h

theorem receiverCompleted_sorted {s : RcvState} (id : SeqNo)
    (hs : s.incomplete.Sorted (· < ·)) :
    (receiverCompleted s id).incomplete.Sorted (· < ·) := by
  unfold receiverCompleted
  split
  · exact hs.filter _
  · exact hs

theorem not_mem_receiverCompleted_self (s : RcvState) (id : SeqNo) :
    id ∉ (receiverCompleted s id).incomplete := by
  unfold receiverCompleted
  split
  · simp [List.mem_filter]
  · assumption

theorem sendAcceptAndCompletion_incomplete (s : RcvState) :
    (sendAcceptAndCompletion s).1.incomplete = s.incomplete := by
  unfold sendAcceptAndCompletion; split <;> rfl

theorem sendAcceptAndCompletion_pendingExecutionSyncs (s : RcvState) :
    (sendAcceptAndCompletion s).1.pendingExecutionSyncs = s.pendingExecutionSyncs := by
  unfold sendAcceptAndCompletion; split <;> rfl

theorem sendAcceptAndCompletion_ccc (s : RcvState) :
    (sendAcceptAndCompletion s).1.currentCommandComplete = s.currentCommandComplete := by
  unfold sendAcceptAndCompletion; split <;> rfl

theorem sendCompletionEv_mem_sendAcceptAndCompletion (s : RcvState) :
    Event.sendCompletionEv ∈ (sendAcceptAndCompletion s).2 := by
  unfold sendAcceptAndCompletion; split <;> simp

theorem sendAcceptAndCompletion_getLast (s : RcvState) :
    (sendAcceptAndCompletion s).2.getLast? = some Event.sendCompletionEv := by
  unfold sendAcceptAndCompletion; split <;> rfl

theorem executionResult_not_mem_sendAcceptAndCompletion (s : RcvState) (id p : Nat) :
    Event.executionResult id p ∉ (sendAcceptAndCompletion s).2 := by
  unfold sendAcceptAndCompletion; split <;> simp

/-! ### Helpers about the head of a sorted incomplete set -/

theorem sorted_headD_le {l : List SeqNo} (hs : l.Sorted (· < ·)) {c : SeqNo}
    (hc : c ∈ l) : l.headD 0 ≤ c := by
  cases l with
  | nil => cases hc
  | cons a t =>
    rcases List.mem_cons.mp hc with h | h
    · simp [h]
    · exact le_of_lt ((List.sorted_cons.mp hs).1 c h)

/-! ### The execution.sync flush loop -/

theorem flushLoop_incomplete_subset :
    ∀ (q : List SeqNo) (s : RcvState) {c : SeqNo},
      c ∈ (flushLoop q s).1.incomplete → c ∈ s.incomplete := by
  intro q
  induction q with
  | nil => intro s c h; exact h
  | cons id rest ih =>
    intro s c h
    simp only [flushLoop] at h
    split at h
    · exact receiverCompleted_incomplete_subset (ih _ h)
    · exact h

theorem flushLoop_pop_eq {id : SeqNo} {s : RcvState} (rest : List SeqNo)
    (hguard : id ≤ s.incomplete.headD 0) :
    flushLoop (id :: rest) s = ((flushLoop rest (receiverCompleted s id)).1, true) := by
  simp only [flushLoop]
  rw [if_pos hguard]

theorem flushLoop_stop_eq {id : SeqNo} {s : RcvState} (rest : List SeqNo)
    (hguard : ¬ id ≤ s.incomplete.headD 0) :
    flushLoop (id :: rest) s = ({ s with pendingExecutionSyncs := id :: rest }, false) := by
  simp only [flushLoop]
  rw [if_neg hguard]

theorem flushLoop_popped_snd :
    ∀ (q : List SeqNo) (s : RcvState) {q0 : SeqNo},
      q0 ∈ q → q0 ∉ (flushLoop q s).1.pendingExecutionSyncs →
      (flushLoop q s).2 = true := by
  intro q
  induction q with
  | nil => intro s q0 h; cases h
  | cons id rest ih =>
    intro s q0 hmem hout
    by_cases hguard : id ≤ s.incomplete.headD 0
    · rw [flushLoop_pop_eq rest hguard]
    · rw [flushLoop_stop_eq rest hguard] at hout
      exact absurd hmem hout

theorem flushLoop_popped_not_incomplete :
    ∀ (q : List SeqNo) (s : RcvState) {q0 : SeqNo},
      q0 ∈ q → q0 ∉ (flushLoop q s).1.pendingExecutionSyncs →
      q0 ∉ (flushLoop q s).1.incomplete := by
  intro q
  induction q with
  | nil => intro s q0 h; cases h
  | cons id rest ih =>
    intro s q0 hmem hout
    by_cases hguard : id ≤ s.incomplete.headD 0
    · rw [flushLoop_pop_eq rest hguard] at hout ⊢
      by_cases heq : q0 = id
      · subst heq
        intro hin
        exact not_mem_receiverCompleted_self s q0 (flushLoop_incomplete_subset _ _ hin)
      · have hm : q0 ∈ rest := by
          rcases List.mem_cons.mp hmem with h | h
          · exact absurd h heq
          · exact h
        exact ih _ hm hout
    · rw [flushLoop_stop_eq rest hguard] at hout
      exact absurd hmem hout

theorem flushLoop_sound :
    ∀ (q : List SeqNo) (s : RcvState) {q0 : SeqNo},
      s.incomplete.Sorted (· < ·) →
      q0 ∈ q → q0 ∉ (flushLoop q s).1.pendingExecutionSyncs →
      ∀ d, d < q0 → d ∉ (flushLoop q s).1.incomplete := by
  intro q
  induction q with
  | nil => intro s q0 _ h; cases h
  | cons id rest ih =>
    intro s q0 hs hmem hout d hd
    by_cases hguard : id ≤ s.incomplete.headD 0
    · rw [flushLoop_pop_eq rest hguard] at hout ⊢
      by_cases heq : q0 = id
      · subst heq
        -- at pop time every id below q0 had already left the incomplete set
        intro hin
        have hin' : d ∈ s.incomplete :=
          receiverCompleted_incomplete_subset (flushLoop_incomplete_subset _ _ hin)
        have hle : s.incomplete.headD 0 ≤ d := sorted_headD_le hs hin'
        exact absurd hd (not_lt.mpr (le_trans hguard hle))
      · have hm : q0 ∈ rest := by
          rcases List.mem_cons.mp hmem with h | h
          · exact absurd h heq
          · exact h
        exact ih _ (receiverCompleted_sorted id hs) hm hout d hd
    · rw [flushLoop_stop_eq rest hguard] at hout
      exact absurd hmem hout

theorem recordAccept_incomplete (s : RcvState) (m : Msg) :
    (recordAccept s m).incomplete = s.incomplete := by
  unfold recordAccept; split <;> rfl

theorem recordAccept_pendingExecutionSyncs (s : RcvState) (m : Msg) :
    (recordAccept s m).pendingExecutionSyncs = s.pendingExecutionSyncs := by
  unfold recordAccept; split <;> rfl

/-- Components of `completeRcvMsg`: both result state fields of interest come
from the flush loop run on the post-accept state. -/
theorem completeRcvMsg_fst_incomplete (t : RcvState) (m : Msg) :
    (completeRcvMsg t m).1.incomplete =
      (flushLoop (recordAccept (receiverCompleted t m.commandId) m).pendingExecutionSyncs
        (recordAccept (receiverCompleted t m.commandId) m)).1.incomplete := by
  simp only [completeRcvMsg]
  split
  · exact sendAcceptAndCompletion_incomplete _
  · split <;> rfl

theorem completeRcvMsg_fst_pendingExecutionSyncs (t : RcvState) (m : Msg) :
    (completeRcvMsg t m).1.pendingExecutionSyncs =
      (flushLoop (recordAccept (receiverCompleted t m.commandId) m).pendingExecutionSyncs
        (recordAccept (receiverCompleted t m.commandId) m)).1.pendingExecutionSyncs := by
  simp only [completeRcvMsg]
  split
  · exact sendAcceptAndCompletion_pendingExecutionSyncs _
  · split <;> rfl

theorem completeRcvMsg_snd_mem (t : RcvState) (m : Msg)
    (hfl : (flushLoop (recordAccept (receiverCompleted t m.commandId) m).pendingExecutionSyncs
        (recordAccept (receiverCompleted t m.commandId) m)).2 = true) :
    Event.sendCompletionEv ∈ (completeRcvMsg t m).2 := by
  simp only [completeRcvMsg]
  split
  · exact sendCompletionEv_mem_sendAcceptAndCompletion _
  all_goals simp_all

/-- C1: an execution.sync command arriving while some strictly-earlier
command is still incomplete is not receiver-completed at dispatch time —
`addPendingExecutionSync` clears `currentCommandComplete` and queues the sync
id, so `handleCommand` neither completes it nor emits anything — and a
queued sync id is receiver-completed, with a completion sent to the peer,
only inside `completeRcvMsg` once every strictly-earlier command has left
the incomplete set. -/
theorem execution_sync_ordering
    (s t : RcvState) (m : Msg) (q c : SeqNo)
    (hsort : s.incomplete.Sorted (· < ·))
    (hcur : s.current ∈ s.incomplete)
    (hc : c ∈ s.incomplete) (hlt : c < s.current)
    (tsort : t.incomplete.Sorted (· < ·))
    (hq : q ∈ t.pendingExecutionSyncs) :
    (s.current ∈ (handleCommand executionSyncInvoke true s.current s).1.incomplete ∧
     s.current ∈ (handleCommand executionSyncInvoke true s.current s).1.pendingExecutionSyncs ∧
     (handleCommand executionSyncInvoke true s.current s).1.currentCommandComplete = false ∧
     (handleCommand executionSyncInvoke true s.current s).2.1 = []) ∧
    (q ∉ (completeRcvMsg t m).1.pendingExecutionSyncs →
       q ∉ (completeRcvMsg t m).1.incomplete ∧
       (∀ d, d < q → d ∉ (completeRcvMsg t m).1.incomplete) ∧
       Event.sendCompletionEv ∈ (completeRcvMsg t m).2) := by
  constructor
  · have hguard : s.incomplete.headD 0 < s.current :=
      lt_of_le_of_lt (sorted_headD_le hsort hc) hlt
    have hguard' : s.incomplete.head?.getD 0 < s.current := by
      simpa [List.headD_eq_head?_getD] using hguard
    simp [handleCommand, executionSyncInvoke, addPendingExecutionSync, hguard', hcur]
  · intro hout
    have hs2p : (recordAccept (receiverCompleted t m.commandId) m).pendingExecutionSyncs =
        t.pendingExecutionSyncs := by
      rw [recordAccept_pendingExecutionSyncs, receiverCompleted_pendingExecutionSyncs]
    have hs2sorted : (recordAccept (receiverCompleted t m.commandId) m).incomplete.Sorted (· < ·) := by
      rw [recordAccept_incomplete]
      exact receiverCompleted_sorted _ tsort
    rw [completeRcvMsg_fst_pendingExecutionSyncs] at hout
    rw [hs2p] at hout
    have hq' : q ∈ (recordAccept (receiverCompleted t m.commandId) m).pendingExecutionSyncs := by
      rw [hs2p]; exact hq
    refine ⟨?_, ?_, ?_⟩
    · rw [completeRcvMsg_fst_incomplete]
      exact flushLoop_popped_not_incomplete _ _ hq' (by rw [hs2p]; exact hout)
    · intro d hd
      rw [completeRcvMsg_fst_incomplete]
      exact flushLoop_sound _ _ hs2sorted hq' (by rw [hs2p]; exact hout) d hd
    · exact completeRcvMsg_snd_mem t m (flushLoop_popped_snd _ _ hq' (by rw [hs2p]; exact hout))

/-- Witness for C1 at a concrete session state: sync id 2 queued behind
incomplete command 1; completing command 1 flushes the sync and sends a
completion. -/
theorem execution_sync_ordering_witness :
    (2 : SeqNo) ∉ (completeRcvMsg ⟨2, [1, 2], [], [], [2], true⟩ ⟨1, false, false⟩).1.incomplete ∧
    (∀ d, d < 2 → d ∉ (completeRcvMsg ⟨2, [1, 2], [], [], [2], true⟩ ⟨1, false, false⟩).1.incomplete) ∧
    Event.sendCompletionEv ∈ (completeRcvMsg ⟨2, [1, 2], [], [], [2], true⟩ ⟨1, false, false⟩).2 :=
  (execution_sync_ordering ⟨2, [1, 2], [], [], [], true⟩ ⟨2, [1, 2], [], [], [2], true⟩
      ⟨1, false, false⟩ 2 1 (by decide) (by decide) (by decide) (by decide) (by decide)
      (by decide)).2 (by decide)

theorem getLast_append_sac (l : List Event) (s3 : RcvState) :
    (l ++ (sendAcceptAndCompletion s3).2).getLast? = some Event.sendCompletionEv := by
  unfold sendAcceptAndCompletion
  split
  · exact List.getLast?_concat l
  · have h : l ++ [Event.messageAccept s3.accepted, Event.sendCompletionEv] =
        (l ++ [Event.messageAccept s3.accepted]) ++ [Event.sendCompletionEv] := by simp
    rw [h]
    exact List.getLast?_concat _

theorem getLast_cons_sac (a : Event) (s3 : RcvState) :
    (a :: (sendAcceptAndCompletion s3).2).getLast? = some Event.sendCompletionEv := by
  unfold sendAcceptAndCompletion
  split <;> rfl

/-- C2: `handleCommand` sets `currentCommandComplete`, invokes the adapter,
receiver-completes the id iff the flag survived the invocation, raises
NotImplemented iff the invocation was unhandled, sends `execution.result`
exactly when a result was produced (and first), and emits the batched accept
and completion (last) exactly when the method is sync and the flag held. -/
theorem handleCommand_dispatch_steps
    (invoke : RcvState → RcvState × InvokeResult) (methodIsSync : Bool)
    (id : SeqNo) (s s2 : RcvState) (inv : InvokeResult)
    (hinv : invoke { s with currentCommandComplete := true } = (s2, inv)) :
    (id ∈ s2.incomplete →
       (id ∉ (handleCommand invoke methodIsSync id s).1.incomplete ↔
        s2.currentCommandComplete = true)) ∧
    ((handleCommand invoke methodIsSync id s).2.2 = some SessionError.notImplemented ↔
       inv.wasHandled = false) ∧
    (∀ p, Event.executionResult id p ∈ (handleCommand invoke methodIsSync id s).2.1 ↔
       (inv.wasHandled = true ∧ some p = inv.result)) ∧
    (Event.sendCompletionEv ∈ (handleCommand invoke methodIsSync id s).2.1 ↔
       (inv.wasHandled = true ∧ methodIsSync = true ∧ s2.currentCommandComplete = true)) ∧
    (∀ p, inv.wasHandled = true → some p = inv.result →
       (handleCommand invoke methodIsSync id s).2.1.head? = some (Event.executionResult id p)) ∧
    ((inv.wasHandled = true ∧ methodIsSync = true ∧ s2.currentCommandComplete = true) →
       (handleCommand invoke methodIsSync id s).2.1.getLast? = some Event.sendCompletionEv) := by
  cases hw : inv.wasHandled <;> cases hcc : s2.currentCommandComplete <;>
    cases methodIsSync <;> rcases hr : inv.result with _ | p' <;>
    simp_all [handleCommand, hinv, receiverCompleted_ccc, receiverCompleted_incomplete_subset,
      not_mem_receiverCompleted_self, sendAcceptAndCompletion_incomplete,
      sendCompletionEv_mem_sendAcceptAndCompletion, executionResult_not_mem_sendAcceptAndCompletion,
      getLast_append_sac, getLast_cons_sac, sendAcceptAndCompletion_getLast]

/-- Witness for C2: a handled sync command with a result, whose invocation
leaves `currentCommandComplete` set. -/
theorem handleCommand_dispatch_steps_witness :
    ((0 : SeqNo) ∈ ([0] : List SeqNo) →
       ((0 : SeqNo) ∉ (handleCommand (fun t => (t, ⟨true, some 7⟩)) true 0 ⟨0, [0], [], [], [], false⟩).1.incomplete ↔
        (RcvState.mk 0 [0] [] [] [] true).currentCommandComplete = true)) ∧
    ((handleCommand (fun t => (t, ⟨true, some 7⟩)) true 0 ⟨0, [0], [], [], [], false⟩).2.2 =
        some SessionError.notImplemented ↔ (InvokeResult.mk true (some 7)).wasHandled = false) ∧
    (∀ p, Event.executionResult 0 p ∈
        (handleCommand (fun t => (t, ⟨true, some 7⟩)) true 0 ⟨0, [0], [], [], [], false⟩).2.1 ↔
       ((InvokeResult.mk true (some 7)).wasHandled = true ∧
        some p = (InvokeResult.mk true (some 7)).result)) ∧
    (Event.sendCompletionEv ∈
        (handleCommand (fun t => (t, ⟨true, some 7⟩)) true 0 ⟨0, [0], [], [], [], false⟩).2.1 ↔
       ((InvokeResult.mk true (some 7)).wasHandled = true ∧ true = true ∧
        (RcvState.mk 0 [0] [] [] [] true).currentCommandComplete = true)) ∧
    (∀ p, (InvokeResult.mk true (some 7)).wasHandled = true →
       some p = (InvokeResult.mk true (some 7)).result →
       (handleCommand (fun t => (t, ⟨true, some 7⟩)) true 0 ⟨0, [0], [], [], [], false⟩).2.1.head? =
         some (Event.executionResult 0 p)) ∧
    (((InvokeResult.mk true (some 7)).wasHandled = true ∧ true = true ∧
        (RcvState.mk 0 [0] [] [] [] true).currentCommandComplete = true) →
       (handleCommand (fun t => (t, ⟨true, some 7⟩)) true 0 ⟨0, [0], [], [], [], false⟩).2.1.getLast? =
         some Event.sendCompletionEv) :=
  handleCommand_dispatch_steps (fun t => (t, ⟨true, some 7⟩)) true 0
    ⟨0, [0], [], [], [], false⟩ ⟨0, [0], [], [], [], true⟩ ⟨true, some 7⟩ rfl

/-! ## Pending-receive registry (`SessionState::IncompleteRcvMsg`)

`entries` models the keys of the `incompleteRcvMsgs` map, `scheduled` the
`scheduledRcvMsgs` deque, `cancelled` the set of pending receives whose
session back-pointer was cleared by `cancel`, and `attached` the session's
`isAttached()`. -/

structure Registry where
  entries : List Nat
  scheduled : List Nat
  cancelled : List Nat
  attached : Bool
  deriving DecidableEq, Repr

/-- Calls into the session made by pending-receive completion machinery. -/
inductive CbEvent where
  | completeInvoked (tok : Nat)
  | ioRequest
  deriving DecidableEq, Repr

/-- `SessionState::IncompleteRcvMsg::operator()(bool sync)`: look the token
up in the registry; when present erase it, and only when the session is
attached either invoke `completeRcvMsg` directly (`sync`) or push onto the
scheduled deque, requesting I/O processing on the 0 to 1 transition. -/
def incompleteRcvMsgCall (st : Registry) (tok : Nat) (sync : Bool) :
    Registry × List CbEvent :=
  if tok ∈ st.entries then
    let st1 := { st with entries := st.entries.filter (fun t => t ≠ tok) }
    if st.attached then
      if sync then (st1, [CbEvent.completeInvoked tok])
      else
        let st2 := { st1 with scheduled := st1.scheduled ++ [tok] }
        if st2.scheduled.length = 1 then (st2, [CbEvent.ioRequest]) else (st2, [])
    else (st1, [])
  else (st, [])

/-- The drain body of `SessionState::IncompleteRcvMsg::scheduledCompleter`:
each popped entry calls `completeRcvMsg` only when its session back-pointer
is still set and the session is attached. -/
def drainLoop : List Nat → List Nat → Bool → List CbEvent
  | [], _, _ => []
  | tok :: rest, cancelled, attached =>
    (if tok ∉ cancelled ∧ attached then [CbEvent.completeInvoked tok] else []) ++
      drainLoop rest cancelled attached

/-- `SessionState::IncompleteRcvMsg::scheduledCompleter`: drain the whole
scheduled deque. -/
def scheduledCompleter (st : Registry) : Registry × List CbEvent :=
  ({ st with scheduled := [] }, drainLoop st.scheduled st.cancelled st.attached)

/-- `SessionState::IncompleteRcvMsg::cancel`: clear the session back-pointer
(the join on the in-flight callback is performed by
`ReceiveCompletion::cancel`, outside this model). -/
def cancelRcvMsg (st : Registry) (tok : Nat) : Registry :=
  { st with cancelled := st.cancelled ++ [tok] }

/-- `SessionState::~SessionState`: clear the registry, cancel every formerly
registered pending receive, and clear the scheduled deque. -/
def sessionDestroy (st : Registry) : Registry :=
  { st with entries := [], cancelled := st.cancelled ++ st.entries, scheduled := [] }

theorem drainLoop_cancelled_not_invoked
    (l cancelled : List Nat) (att : Bool) {tok : Nat} (h : tok ∈ cancelled) :
    CbEvent.completeInvoked tok ∉ drainLoop l cancelled att := by
  induction l with
  | nil => simp [drainLoop]
  | cons t rest ih =>
    simp only [drainLoop, List.mem_append]
    rintro (hm | hm)
    · split at hm
      · rename_i hc
        rcases List.mem_singleton.mp hm with heq
        cases heq
        exact hc.1 h
      · cases hm
    · exact ih hm

/-- C3: a pending-receive completion that fires while the session is
detached produces no session call and no wire output yet still clears the
registry entry; one that fires when the token is no longer registered (after
session destruction) is a no-op; a token is always deregistered by its first
callback, so `completeRcvMsg` is invoked at most once per registered
envelope; and a scheduled cross-thread completion for a cancelled pending
receive skips the session while still draining the deque. -/
theorem pendingReceive_completion_noop
    (st : Registry) (tok : Nat) (sync sync2 : Bool) :
    (st.attached = false →
       (incompleteRcvMsgCall st tok sync).2 = [] ∧
       tok ∉ (incompleteRcvMsgCall st tok sync).1.entries) ∧
    (tok ∉ st.entries → incompleteRcvMsgCall st tok sync = (st, [])) ∧
    tok ∉ (incompleteRcvMsgCall st tok sync).1.entries ∧
    CbEvent.completeInvoked tok ∉
      (incompleteRcvMsgCall (incompleteRcvMsgCall st tok sync).1 tok sync2).2 ∧
    (tok ∈ st.cancelled →
       CbEvent.completeInvoked tok ∉ (scheduledCompleter st).2 ∧
       (scheduledCompleter st).1.scheduled = []) ∧
    incompleteRcvMsgCall (sessionDestroy st) tok sync = (sessionDestroy st, []) := by
  have hrem : ∀ (u : Registry) (b : Bool), tok ∉ (incompleteRcvMsgCall u tok b).1.entries := by
    intro u b
    unfold incompleteRcvMsgCall
    by_cases hm : tok ∈ u.entries
    · simp only [if_pos hm]
      split
      · split
        · simp [List.mem_filter]
        · split <;> simp [List.mem_filter]
      · simp [List.mem_filter]
    · simp [hm]
  have hnoop : ∀ (u : Registry) (b : Bool), tok ∉ u.entries →
      incompleteRcvMsgCall u tok b = (u, []) := by
    intro u b hm
    unfold incompleteRcvMsgCall
    simp [hm]
  refine ⟨?_, hnoop st sync, hrem st sync, ?_, ?_, ?_⟩
  · intro hdet
    refine ⟨?_, hrem st sync⟩
    unfold incompleteRcvMsgCall
    by_cases hm : tok ∈ st.entries <;> simp [hm, hdet]
  · rw [hnoop _ sync2 (hrem st sync)]
    simp
  · intro hc
    exact ⟨drainLoop_cancelled_not_invoked _ _ _ hc, rfl⟩
  · exact hnoop _ sync (by simp [sessionDestroy])

/-- Witness for C3 at concrete registries: a detached-session callback for
registered token 5, a cancelled-and-scheduled token 5, and a callback for an
unregistered token 9. -/
theorem pendingReceive_completion_noop_witness :
    ((incompleteRcvMsgCall ⟨[5], [5], [5], false⟩ 5 true).2 = [] ∧
     (5 : Nat) ∉ (incompleteRcvMsgCall ⟨[5], [5], [5], false⟩ 5 true).1.entries) ∧
    (CbEvent.completeInvoked 5 ∉ (scheduledCompleter ⟨[5], [5], [5], false⟩).2 ∧
     (scheduledCompleter ⟨[5], [5], [5], false⟩).1.scheduled = []) ∧
    incompleteRcvMsgCall ⟨[], [], [], true⟩ 9 true = (⟨[], [], [], true⟩, []) :=
  ⟨(pendingReceive_completion_noop ⟨[5], [5], [5], false⟩ 5 true true).1 rfl,
   (pendingReceive_completion_noop ⟨[5], [5], [5], false⟩ 5 true true).2.2.2.2.1 (by decide),
   (pendingReceive_completion_noop ⟨[], [], [], true⟩ 9 true true).2.1 (by decide)⟩

/-! ## Producer flow control (`SessionState::processSendCredit`)

The `RateFlowcontrol` object itself is not under src/ (only its header is
included); its observable answers on this call — `flowStopped()` before the
grant, the credit returned by `receivedMessage`, and `flowStopped()` after —
are taken as parameters, exactly as `processSendCredit` consumes them. -/

/-- Calls `processSendCredit` makes on the proxies, the flow-control counters
and the management object. -/
inductive CreditEvent where
  | logWarn (text : String)
  | messageStop (dest : String)
  | messageFlow (dest : String) (unit : Nat) (credit : Nat)
  | sentCredit (credit : Nat)
  | decClientCredit (msgs : Nat)
  | incClientCredit (credit : Nat)
  deriving DecidableEq, Repr

/-- `SessionState::processSendCredit(msgs)`: on a producer frame while flow
is stopped, log a warning and send `message.stop("")`; otherwise account the
received messages and send any credit computed by the rate regulator. -/
def processSendCredit (fsBefore : Bool) (sendCredit : Nat) (fsAfter : Bool)
    (msgs : Nat) : Bool × List CreditEvent :=
  if msgs > 0 ∧ fsBefore then
    (true, [CreditEvent.logWarn "producer throttling violation", CreditEvent.messageStop ""])
  else
    if sendCredit > 0 then
      (true, [CreditEvent.decClientCredit msgs, CreditEvent.messageFlow "" 0 sendCredit,
              CreditEvent.sentCredit sendCredit, CreditEvent.incClientCredit sendCredit])
    else (!fsAfter, [CreditEvent.decClientCredit msgs])

/-- C7: a producer frame opening a frameset while `flowStopped()` holds makes
`processSendCredit` emit exactly a warning log and `message.stop("")`, and
advance no credit counters (no `message.flow`, no `sentCredit`, no
management credit update). -/
theorem processSendCredit_flowStopped
    (sendCredit : Nat) (fsAfter : Bool) (msgs : Nat) (h : 0 < msgs) :
    processSendCredit true sendCredit fsAfter msgs =
      (true, [CreditEvent.logWarn "producer throttling violation",
              CreditEvent.messageStop ""]) ∧
    (∀ c, CreditEvent.messageFlow "" 0 c ∉ (processSendCredit true sendCredit fsAfter msgs).2 ∧
          CreditEvent.sentCredit c ∉ (processSendCredit true sendCredit fsAfter msgs).2 ∧
          CreditEvent.incClientCredit c ∉ (processSendCredit true sendCredit fsAfter msgs).2 ∧
          CreditEvent.decClientCredit c ∉ (processSendCredit true sendCredit fsAfter msgs).2) := by
  have hcond : msgs > 0 ∧ (true : Bool) = true := ⟨h, rfl⟩
  constructor
  · simp [processSendCredit, h]
  · intro c
    simp [processSendCredit, h]

/-- Witness for C7: one message while throttled. -/
theorem processSendCredit_flowStopped_witness :
    processSendCredit true 4 false 1 =
      (true, [CreditEvent.logWarn "producer throttling violation",
              CreditEvent.messageStop ""]) ∧
    (∀ c, CreditEvent.messageFlow "" 0 c ∉ (processSendCredit true 4 false 1).2 ∧
          CreditEvent.sentCredit c ∉ (processSendCredit true 4 false 1).2 ∧
          CreditEvent.incClientCredit c ∉ (processSendCredit true 4 false 1).2 ∧
          CreditEvent.decClientCredit c ∉ (processSendCredit true 4 false 1).2) :=
  processSendCredit_flowStopped 4 false 1 (by decide)

/-! ## Frame dispatch (`SessionState::handleIn`) -/

/-- The part of an `AMQMethodBody` that `handleIn` inspects. -/
structure MethodInfo where
  contentBearing : Bool
  deriving DecidableEq, Repr

/-- The part of an `AMQFrame` that `handleIn` inspects: an optional method
body and the begin/end-of-frameset flags. -/
structure Frame where
  method : Option MethodInfo
  bof : Bool
  eof : Bool
  deriving DecidableEq, Repr

inductive Dispatch where
  | content
  | command
  deriving DecidableEq, Repr

/-- `SessionState::handleIn`: frames without a method body or with a
content-bearing method go to `handleContent`; a non-content-bearing method
frame that both begins and ends its frameset goes to `handleCommand`; any
other frame throws. -/
def handleIn (f : Frame) : Except SessionError Dispatch :=
  match f.method with
  | none => Except.ok Dispatch.content
  | some m =>
    if m.contentBearing then Except.ok Dispatch.content
    else if f.bof ∧ f.eof then Except.ok Dispatch.command
    else Except.error
      (SessionError.internalError "Cannot handle multi-frame command segments yet")

/-- C8: `handleIn` routes header/content frames and content-bearing methods
to content handling, routes single-frame non-content-bearing method frames
to command handling, and fails (the NotYetSupported / InternalError path) on
exactly the remaining frames: non-content-bearing multi-frame command
segments. -/
theorem handleIn_dispatch (f : Frame) :
    (handleIn f = Except.ok Dispatch.content ↔
       (f.method = none ∨ ∃ m, f.method = some m ∧ m.contentBearing = true)) ∧
    (handleIn f = Except.ok Dispatch.command ↔
       (∃ m, f.method = some m ∧ m.contentBearing = false ∧
             f.bof = true ∧ f.eof = true)) ∧
    (handleIn f =
        Except.error (SessionError.internalError "Cannot handle multi-frame command segments yet") ↔
       (∃ m, f.method = some m ∧ m.contentBearing = false ∧
             (f.bof = false ∨ f.eof = false))) := by
  rcases hm : f.method with _ | m
  · simp [handleIn, hm]
  · rcases m with ⟨cb⟩
    cases cb <;> cases hb : f.bof <;> cases he : f.eof <;>
      simp_all [handleIn, hm]

/-! ## Outbound delivery (`SessionState::deliver`) -/

/-- A position in the outbound command stream: command id plus byte offset. -/
structure SessionPoint where
  command : Nat
  offset : Nat
  deriving DecidableEq, Repr

/-- Modelled from the spec: `DeliveryRecord::deliver` and the base-class
sender cursor are not under src/.  Per spec §4.1/§3 (and the postcondition
asserted on line 378 of SessionState.cpp) sending one message advances the
send command point by exactly one command and returns the offset to zero. -/
def deliverRecordSend (p : SessionPoint) : SessionPoint :=
  { command := p.command + 1, offset := 0 }

/-- `SessionState::deliver(msg, sync)`: require a zero byte offset, send the
message at the current command id (advancing the point), and emit an
outbound `execution.sync` when requested. -/
def deliver (p : SessionPoint) (sync : Bool) :
    Except SessionError (SessionPoint × List Event) :=
  if p.offset ≠ 0 then Except.error SessionError.invariantViolation
  else
    Except.ok (deliverRecordSend p,
      Event.deliverCmd p.command :: (if sync then [Event.executionSyncOut] else []))

/-- C9: delivery from a non-zero offset is an invariant violation; otherwise
the message goes out at the current command id, the send point becomes
(previous id + 1, offset 0), and an outbound execution.sync follows exactly
when `sync` was requested. -/
theorem deliver_advances_one_command (p : SessionPoint) (sync : Bool) :
    (p.offset ≠ 0 → deliver p sync = Except.error SessionError.invariantViolation) ∧
    (p.offset = 0 →
       deliver p sync =
         Except.ok (⟨p.command + 1, 0⟩,
           Event.deliverCmd p.command ::
             (if sync then [Event.executionSyncOut] else [])) ∧
       (∀ q evs, deliver p sync = Except.ok (q, evs) →
          (Event.executionSyncOut ∈ evs ↔ sync = true))) := by
  constructor
  · intro h
    simp [deliver, h]
  · intro h
    constructor
    · simp [deliver, h, deliverRecordSend]
    · intro q evs heq
      cases sync <;> simp_all [deliver, h] <;> simp [← heq.2]

/-- Witness for C9: delivering command 3 at offset 0 with sync requested. -/
theorem deliver_advances_one_command_witness :
    deliver ⟨3, 0⟩ true =
      Except.ok (⟨4, 0⟩, Event.deliverCmd 3 ::
        (if true then [Event.executionSyncOut] else [])) ∧
    (∀ q evs, deliver ⟨3, 0⟩ true = Except.ok (q, evs) →
       (Event.executionSyncOut ∈ evs ↔ true = true)) :=
  (deliver_advances_one_command ⟨3, 0⟩ true).2 rfl

/-! ## Client-side reconnect engine
(`qpid/client/amqp0_10/ConnectionImpl.cpp`) -/

/-- `qpid::sys::TIME_SEC` in nanoseconds. -/
def timeSec : Int := 1000000000

/-- The free function `expired(start, timeout)` of ConnectionImpl.cpp;
`used` is the elapsed `Duration(start, now())` in nanoseconds. -/
def expired (used : Int) (timeout : Int) : Bool :=
  if timeout = 0 then true
  else if timeout < 0 then false
  else decide (timeout * timeSec < used)

/-- The reconnect-policy fields of `ConnectionImpl`. -/
structure ConnState where
  reconnect : Bool
  timeout : Int
  limit : Int
  minReconnectInterval : Int
  maxReconnectInterval : Int
  retries : Int
  deriving DecidableEq, Repr

inductive TransportError where
  | reconnectDisabled
  | withinLimit
  | withinTimeout
  deriving DecidableEq, Repr

/-- Outcome of `ConnectionImpl::connect`: the resulting `retries` member and
the sequence of back-off sleeps performed, or the error thrown (with the
`retries` value at the throw and the sleeps performed before it). -/
inductive ConnectResult where
  | success (retries : Int) (sleeps : List Int)
  | failure (e : TransportError) (retries : Int) (sleeps : List Int)
  deriving DecidableEq, Repr

/-- The `for` loop of `ConnectionImpl::connect`.  Each element of `fails` is
one failed `tryConnect()` attempt, carrying the elapsed time observed by
`expired` on that iteration; when the list is exhausted `tryConnect`
succeeds and the loop exits, resetting `retries` to zero.  `retries` is only
post-incremented when `limit >= 0` (short-circuit of `limit >= 0 &&
retries++ >= limit`). -/
def connectLoop (st : ConnState) : Int → Int → List Int → ConnectResult
  | _, _, [] => ConnectResult.success 0 []
  | retries, i, used :: rest =>
    if ¬ st.reconnect then
      ConnectResult.failure TransportError.reconnectDisabled retries []
    else
      let r2 := if st.limit ≥ 0 then retries + 1 else retries
      if st.limit ≥ 0 ∧ retries ≥ st.limit then
        ConnectResult.failure TransportError.withinLimit r2 []
      else if expired used st.timeout then
        ConnectResult.failure TransportError.withinTimeout r2 []
      else
        match connectLoop st r2 (min (i * 2) st.maxReconnectInterval) rest with
        | ConnectResult.success r sl => ConnectResult.success r (i :: sl)
        | ConnectResult.failure e r sl => ConnectResult.failure e r (i :: sl)

/-- `ConnectionImpl::connect(started)`: run the retry loop starting from the
member `retries` and interval `minReconnectInterval`. -/
def connect (st : ConnState) (fails : List Int) : ConnectResult :=
  connectLoop st st.retries st.minReconnectInterval fails

/-- The sleep sequence the spec prescribes: start at `i`, double capped at
`maxI`. -/
def backoffSeq (i maxI : Int) : Nat → List Int
  | 0 => []
  | n + 1 => i :: backoffSeq (min (i * 2) maxI) maxI n

theorem connectLoop_success_all
    (st : ConnState) (hrec : st.reconnect = true) :
    ∀ (fails : List Int) (retries i : Int),
      (st.limit < 0 ∨ retries + fails.length ≤ st.limit) →
      (∀ u ∈ fails, expired u st.timeout = false) →
      connectLoop st retries i fails =
        ConnectResult.success 0 (backoffSeq i st.maxReconnectInterval fails.length) := by
  intro fails
  induction fails with
  | nil => intro retries i _ _; rfl
  | cons used rest ih =>
    intro retries i hlim hex
    simp only [connectLoop, hrec]
    have hnotlim : ¬ (st.limit ≥ 0 ∧ retries ≥ st.limit) := by
      rcases hlim with h | h
      · omega
      · simp only [List.length_cons] at h
        push_cast at h
        omega
    have hnotex : expired used st.timeout = false := hex used (by simp)
    rw [if_neg (by simp [hrec]), if_neg hnotlim, if_neg (by simp [hnotex])]
    have hrec2 : (st.limit < 0 ∨ (if st.limit ≥ 0 then retries + 1 else retries) + rest.length ≤ st.limit) := by
      rcases hlim with h | h
      · exact Or.inl h
      · right
        simp only [List.length_cons] at h
        push_cast at h ⊢
        split <;> omega
    rw [ih _ _ hrec2 (fun u hu => hex u (by simp [hu]))]
    simp [backoffSeq]

theorem connectLoop_success_retries_zero
    (st : ConnState) :
    ∀ (fails : List Int) (retries i : Int) (r : Int) (sl : List Int),
      connectLoop st retries i fails = ConnectResult.success r sl → r = 0 := by
  intro fails
  induction fails with
  | nil =>
    intro retries i r sl h
    simp only [connectLoop] at h
    cases h
    rfl
  | cons used rest ih =>
    intro retries i r sl h
    simp only [connectLoop] at h
    split at h
    · cases h
    · split at h
      · cases h
      · split at h
        · cases h
        · split at h
          · rename_i heq
            cases h
            exact ih _ _ _ _ heq
          · cases h

/-- C5: with reconnect enabled and neither limit nor timeout triggering, a
run of n failed attempts sleeps min, min(2·min,max), … (doubling capped at
max) and then succeeds; with reconnect disabled, or the retry count at the
limit (limit ≥ 0), or the elapsed time expired, the first failed attempt
raises the corresponding TransportFailure without sleeping; timeout 0 means
expired at once (no retry) and negative timeout never expires (retry
forever). -/
theorem connect_backoff_policy (st : ConnState) (fails : List Int) (used : Int) :
    (st.reconnect = true →
     (st.limit < 0 ∨ st.retries + fails.length ≤ st.limit) →
     (∀ u ∈ fails, expired u st.timeout = false) →
     connect st fails =
       ConnectResult.success 0
         (backoffSeq st.minReconnectInterval st.maxReconnectInterval fails.length)) ∧
    (st.reconnect = false →
     connect st (used :: fails) =
       ConnectResult.failure TransportError.reconnectDisabled st.retries []) ∧
    (st.reconnect = true → 0 ≤ st.limit → st.limit ≤ st.retries →
     connect st (used :: fails) =
       ConnectResult.failure TransportError.withinLimit (st.retries + 1) []) ∧
    (st.reconnect = true → ¬ (st.limit ≥ 0 ∧ st.retries ≥ st.limit) →
     expired used st.timeout = true →
     connect st (used :: fails) =
       ConnectResult.failure TransportError.withinTimeout
         (if st.limit ≥ 0 then st.retries + 1 else st.retries) []) ∧
    expired used 0 = true ∧
    (st.timeout < 0 → expired used st.timeout = false) ∧
    (0 < st.timeout → (expired used st.timeout = true ↔ st.timeout * timeSec < used)) := by
  refine ⟨?_, ?_, ?_, ?_, ?_, ?_, ?_⟩
  · intro hrec hlim hex
    exact connectLoop_success_all st hrec fails st.retries st.minReconnectInterval hlim hex
  · intro hrec
    simp [connect, connectLoop, hrec]
  · intro hrec h0 hle
    simp only [connect, connectLoop]
    rw [if_neg (by simp [hrec]), if_pos ⟨h0, hle⟩]
    simp [h0]
  · intro hrec hnl hexp
    simp only [connect, connectLoop]
    rw [if_neg (by simp [hrec]), if_neg hnl, if_pos (by simp [hexp])]
  · simp [expired]
  · intro h
    simp [expired, h]
    omega
  · intro h
    simp [expired, h]
    omega

/-- Witness for C5: min 1, max 8, five failures with neither limit nor
timeout in the way sleep 1, 2, 4, 8, 8; a disabled engine fails at once. -/
theorem connect_backoff_policy_witness :
    connect ⟨true, -1, -1, 1, 8, 0⟩ [10, 20, 30, 40, 50] =
      ConnectResult.success 0
        (backoffSeq 1 8 (List.length [10, 20, 30, 40, 50])) ∧
    connect ⟨false, -1, -1, 1, 8, 0⟩ (10 :: [20]) =
      ConnectResult.failure TransportError.reconnectDisabled 0 [] ∧
    connect ⟨true, -1, 2, 1, 8, 2⟩ (10 :: [20]) =
      ConnectResult.failure TransportError.withinLimit (2 + 1) [] ∧
    connect ⟨true, 0, -1, 1, 8, 0⟩ (10 :: [20]) =
      ConnectResult.failure TransportError.withinTimeout
        (if (-1 : Int) ≥ 0 then 0 + 1 else 0) [] :=
  ⟨(connect_backoff_policy ⟨true, -1, -1, 1, 8, 0⟩ [10, 20, 30, 40, 50] 0).1
      rfl (Or.inl (by decide)) (by decide),
   (connect_backoff_policy ⟨false, -1, -1, 1, 8, 0⟩ [20] 10).2.1 rfl,
   (connect_backoff_policy ⟨true, -1, 2, 1, 8, 2⟩ [20] 10).2.2.1 rfl (by decide) (by decide),
   (connect_backoff_policy ⟨true, 0, -1, 1, 8, 0⟩ [20] 10).2.2.2.1 rfl (by decide) (by decide)⟩

/-- C10: a successful `connect` always leaves `retries = 0`, so after any
successful reconnection a later outage is again allowed up to
`reconnect-limit` consecutive failed attempts, independently of how many
failures earlier outages accumulated. -/
theorem connect_resets_retries
    (st : ConnState) (fails1 fails2 : List Int) (r1 : Int) (sl1 : List Int)
    (h1 : connect st fails1 = ConnectResult.success r1 sl1)
    (hrec : st.reconnect = true)
    (hn2 : (fails2.length : Int) ≤ st.limit)
    (hex : ∀ u ∈ fails2, expired u st.timeout = false) :
    r1 = 0 ∧
    connect { st with retries := r1 } fails2 =
      ConnectResult.success 0
        (backoffSeq st.minReconnectInterval st.maxReconnectInterval fails2.length) := by
  have hr0 : r1 = 0 := connectLoop_success_retries_zero st fails1 st.retries st.minReconnectInterval r1 sl1 h1
  refine ⟨hr0, ?_⟩
  subst hr0
  exact connectLoop_success_all { st with retries := 0 } hrec fails2 0
    st.minReconnectInterval (Or.inr (by simpa using hn2)) hex

/-- Witness for C10: limit 2; two outages of two failures each (four
cumulative failures) both reconnect because the counter resets. -/
theorem connect_resets_retries_witness :
    (0 : Int) = 0 ∧
    connect { ConnState.mk true (-1) 2 1 8 0 with retries := 0 } [10, 20] =
      ConnectResult.success 0 (backoffSeq 1 8 (List.length [10, 20])) :=
  connect_resets_retries ⟨true, -1, 2, 1, 8, 0⟩ [10, 20] [10, 20] 0 [1, 2]
    (by decide) rfl (by decide) (by decide)

/-! ## Reconnect URL list (`ConnectionImpl` constructor, `setOption`,
`mergeUrls`) -/

/-- The anonymous-namespace `merge(value, list)` of ConnectionImpl.cpp:
append the value only when it is not already present. -/
def merge (value : String) (list : List String) : List String :=
  if value ∈ list then list else list ++ [value]

/-- The anonymous-namespace `merge(from, to)`: merge every element in
order. -/
def mergeList : List String → List String → List String
  | [], to_ => to_
  | v :: rest, to_ => mergeList rest (merge v to_)

/-- The constructor options that touch the URL list.  All other recognized
options leave `urls`/`replaceUrls` unchanged, and unrecognized names throw
before mutating them, so both collapse to `otherOption`. -/
inductive UrlOption where
  | reconnectUrlsReplace (b : Bool)
  | reconnectUrls (vals : List String)
  | otherOption
  deriving DecidableEq, Repr

/-- The effect of `ConnectionImpl::setOption` on `(replaceUrls, urls)`:
`reconnect-urls-replace` stores the flag; `reconnect-urls` first clears the
list when the flag is set, then merges the given values. -/
def setOption : Bool × List String → UrlOption → Bool × List String
  | (_, urls), UrlOption.reconnectUrlsReplace b => (b, urls)
  | (rep, urls), UrlOption.reconnectUrls vals =>
      (rep, mergeList vals (if rep then [] else urls))
  | st, UrlOption.otherOption => st

/-- `ConnectionImpl::setOptions`: apply each option in order. -/
def setOptions : Bool × List String → List UrlOption → Bool × List String
  | st, [] => st
  | st, o :: rest => setOptions (setOption st o) rest

/-- The `ConnectionImpl` constructor's effect on `urls`: start from
`replaceUrls = false, urls = {}`, apply the options, then insert the
caller's url at the front. -/
def connectionImplInit (url : String) (options : List UrlOption) : List String :=
  url :: (setOptions (false, []) options).2

/-- `ConnectionImpl::mergeUrls`: merge the broker-advertised known hosts
into the list. -/
def mergeUrls (more : List String) (urls : List String) : List String :=
  mergeList more urls

/-- A sequence of post-connect known-host merges. -/
def applyMerges : List (List String) → List String → List String
  | [], urls => urls
  | more :: rest, urls => applyMerges rest (mergeUrls more urls)

theorem merge_nodup {l : List String} (h : l.Nodup) (v : String) :
    (merge v l).Nodup := by
  unfold merge
  split
  · exact h
  · rename_i hv
    simp [List.nodup_append, h, hv]

theorem mergeList_nodup :
    ∀ (vs : List String) {l : List String}, l.Nodup → (mergeList vs l).Nodup := by
  intro vs
  induction vs with
  | nil => intro l h; exact h
  | cons v rest ih => intro l h; exact ih (merge_nodup h v)

theorem merge_ne_nil {l : List String} (h : l ≠ []) (v : String) :
    merge v l ≠ [] := by
  unfold merge
  split
  · exact h
  · cases l with
    | nil => exact absurd rfl h
    | cons a t => simp

theorem merge_head {l : List String} (h : l ≠ []) (v : String) :
    (merge v l).head? = l.head? := by
  unfold merge
  split
  · rfl
  · cases l with
    | nil => exact absurd rfl h
    | cons a t => rfl

theorem mergeList_head :
    ∀ (vs : List String) {l : List String}, l ≠ [] →
      (mergeList vs l).head? = l.head? ∧ mergeList vs l ≠ [] := by
  intro vs
  induction vs with
  | nil => intro l h; exact ⟨rfl, h⟩
  | cons v rest ih =>
    intro l h
    have h2 := merge_ne_nil h v
    have := ih h2
    exact ⟨this.1.trans (merge_head h v), this.2⟩

theorem merge_append_tail (v : String) (l : List String) :
    ∃ t, merge v l = l ++ t := by
  unfold merge
  split
  · exact ⟨[], by simp⟩
  · exact ⟨[v], rfl⟩

theorem mergeList_append_tail :
    ∀ (vs : List String) (l : List String), ∃ t, mergeList vs l = l ++ t := by
  intro vs
  induction vs with
  | nil => intro l; exact ⟨[], by simp [mergeList]⟩
  | cons v rest ih =>
    intro l
    obtain ⟨t1, h1⟩ := merge_append_tail v l
    obtain ⟨t2, h2⟩ := ih (merge v l)
    refine ⟨t1 ++ t2, ?_⟩
    simp only [mergeList]
    rw [h2, h1, List.append_assoc]

theorem setOption_nodup {st : Bool × List String} (h : st.2.Nodup)
    (o : UrlOption) : (setOption st o).2.Nodup := by
  rcases st with ⟨rep, urls⟩
  cases o with
  | reconnectUrlsReplace b => exact h
  | reconnectUrls vals =>
    cases rep
    · exact mergeList_nodup vals h
    · exact mergeList_nodup vals List.nodup_nil
  | otherOption => exact h

theorem setOptions_nodup :
    ∀ (options : List UrlOption) (st : Bool × List String), st.2.Nodup →
      (setOptions st options).2.Nodup := by
  intro options
  induction options with
  | nil => intro st h; exact h
  | cons o rest ih => intro st h; exact ih _ (setOption_nodup h o)

theorem applyMerges_nodup :
    ∀ (merges : List (List String)) {urls : List String}, urls.Nodup →
      (applyMerges merges urls).Nodup := by
  intro merges
  induction merges with
  | nil => intro urls h; exact h
  | cons more rest ih => intro urls h; exact ih (mergeList_nodup more h)

theorem applyMerges_head :
    ∀ (merges : List (List String)) {urls : List String}, urls ≠ [] →
      (applyMerges merges urls).head? = urls.head? ∧ applyMerges merges urls ≠ [] := by
  intro merges
  induction merges with
  | nil => intro urls h; exact ⟨rfl, h⟩
  | cons more rest ih =>
    intro urls h
    have hm := mergeList_head more h
    have := ih hm.2
    exact ⟨this.1.trans hm.1, this.2⟩

/-- C6 counterexample: constructing with the caller's own URL also listed in
the `reconnect-urls` option yields a duplicated list, because the
constructor runs `setOptions` first and then unconditionally inserts the
caller's URL at the front. -/
theorem reconnect_urls_duplicate_counterexample :
    connectionImplInit "amqp:tcp:a" [UrlOption.reconnectUrls ["amqp:tcp:a"]] =
      ["amqp:tcp:a", "amqp:tcp:a"] ∧
    ¬ (connectionImplInit "amqp:tcp:a" [UrlOption.reconnectUrls ["amqp:tcp:a"]]).Nodup := by
  constructor
  · rfl
  · decide

/-- C6 (amended): after construction and any sequence of known-host merges
the first entry is the caller's URL and merges only append previously unseen
entries; the list is duplicate-free provided the constructor's options did
not already accumulate the caller's URL. -/
theorem reconnect_urls_invariant
    (url : String) (options : List UrlOption) (merges : List (List String))
    (hnotin : url ∉ (setOptions (false, []) options).2) :
    (applyMerges merges (connectionImplInit url options)).Nodup ∧
    (applyMerges merges (connectionImplInit url options)).head? = some url ∧
    (∀ more, ∃ t, mergeUrls more (applyMerges merges (connectionImplInit url options)) =
       applyMerges merges (connectionImplInit url options) ++ t) := by
  have hnodup0 : (setOptions (false, []) options).2.Nodup :=
    setOptions_nodup options (false, []) List.nodup_nil
  have hinit : (connectionImplInit url options).Nodup := by
    simp [connectionImplInit, List.nodup_cons, hnotin, hnodup0]
  have hne : connectionImplInit url options ≠ [] := by
    simp [connectionImplInit]
  refine ⟨applyMerges_nodup merges hinit, ?_, ?_⟩
  · exact (applyMerges_head merges hne).1.trans rfl
  · intro more
    exact mergeList_append_tail more _

/-- Witness for C6 (amended): url "amqp:tcp:a" with extra reconnect-urls
"amqp:tcp:b" and a known-host merge re-advertising a and adding c. -/
theorem reconnect_urls_invariant_witness :
    (applyMerges [["amqp:tcp:a", "amqp:tcp:c"]]
       (connectionImplInit "amqp:tcp:a" [UrlOption.reconnectUrls ["amqp:tcp:b"]])).Nodup ∧
    (applyMerges [["amqp:tcp:a", "amqp:tcp:c"]]
       (connectionImplInit "amqp:tcp:a" [UrlOption.reconnectUrls ["amqp:tcp:b"]])).head? =
      some "amqp:tcp:a" ∧
    (∀ more, ∃ t, mergeUrls more
       (applyMerges [["amqp:tcp:a", "amqp:tcp:c"]]
         (connectionImplInit "amqp:tcp:a" [UrlOption.reconnectUrls ["amqp:tcp:b"]])) =
       applyMerges [["amqp:tcp:a", "amqp:tcp:c"]]
         (connectionImplInit "amqp:tcp:a" [UrlOption.reconnectUrls ["amqp:tcp:b"]]) ++ t) :=
  reconnect_urls_invariant "amqp:tcp:a" [UrlOption.reconnectUrls ["amqp:tcp:b"]]
    [["amqp:tcp:a", "amqp:tcp:c"]] (by decide)

end Qpid
